import Mathlib

/-!
Verification of the slot-routing core of a Redis-cluster client
(`src/lib.rs`).  Rust functions are shallowly embedded as Lean functions:
byte strings become `List Nat` (each element < 256), machine integers
become `Nat` with explicit `% 2^w` where wrap-around matters, fallible
code returns `Except` / `Option`, and the asynchronous environment
(server replies, connection attempts, the random number generator) is
passed in explicitly as function arguments.
-/

namespace RedisCluster

/-- `SLOT_SIZE` from the source: the number of hash slots. -/
def SLOT_SIZE : Nat := 16384

/-- `DEFAULT_RETRIES` from the source. -/
def DEFAULT_RETRIES : Nat := 16

/-- One byte step of CRC16/XMODEM (crate `crc16`, `State::<XMODEM>`):
polynomial 0x1021, initial value 0x0000, no reflection, no final xor.
Modelled from the spec: the source delegates to the external `crc16`
crate, whose parameters §4.1 of the spec fixes exactly. -/
def crc16_step (crc : Nat) (b : Nat) : Nat :=
  let crc := (crc ^^^ (b <<< 8)) % 65536
  (List.range 8).foldl
    (fun c _ => if 32768 ≤ c then ((c <<< 1) ^^^ 0x1021) % 65536 else (c <<< 1) % 65536)
    crc

/-- CRC16/XMODEM of a byte string. -/
def crc16_xmodem (data : List Nat) : Nat := data.foldl crc16_step 0

/-- Rust `Iterator::position`: index of the first element satisfying `p`. -/
def position (p : Nat → Bool) : List Nat → Option Nat
  | [] => none
  | b :: rest => if p b then some 0 else (position p rest).map (· + 1)

/-- Read the ASCII decimal digits of a RESP length header up to the
terminating CRLF.  Part of the packed-command parser. -/
def readDigits (acc : Nat) : List Nat → Option (Nat × List Nat)
  | [] => none
  | b :: rest =>
    if 48 ≤ b ∧ b ≤ 57 then
      match rest with
      | 13 :: 10 :: rest2 => some (acc * 10 + (b - 48), rest2)
      | _ => readDigits (acc * 10 + (b - 48)) rest
    else none

/-- Consume a CRLF pair. -/
def expectCRLF : List Nat → Option (List Nat)
  | 13 :: 10 :: rest => some rest
  | _ => none

/-- Parse one RESP bulk string `$len\r\n<len bytes>\r\n` (0x24 = `$`). -/
def parseBulkString : List Nat → Option (List Nat × List Nat)
  | 36 :: rest => do
    let (len, rest) ← readDigits 0 rest
    let body := rest.take len
    if body.length = len then
      let rest ← expectCRLF (rest.drop len)
      pure (body, rest)
    else none
  | _ => none

/-- Parse `n` consecutive bulk-string arguments. -/
def parseArgs : Nat → List Nat → Option (List (List Nat))
  | 0, _ => some []
  | n + 1, input => do
    let (arg, rest) ← parseBulkString input
    let args ← parseArgs n rest
    pure (arg :: args)

/-- Parse a packed command `*n\r\n` followed by `n` bulk strings
(0x2A = `*`).  Modelled from the spec: the source calls the external
`redis::parse_redis_value`; §4.1 of the spec describes the packed
command as an array header followed by bulk-string arguments. -/
def parsePackedCommand : List Nat → Option (List (List Nat))
  | 42 :: rest => do
    let (n, rest) ← readDigits 0 rest
    parseArgs n rest
  | _ => none

/-- `command_key` from the source: parse the packed command and return
the second argument (the key) when there are at least two bulk-string
arguments (`args.swap_remove(1)` returns the element at index 1). -/
def command_key (cmd : List Nat) : Option (List Nat) :=
  (parsePackedCommand cmd).bind fun args =>
    if 2 ≤ args.length then args.get? 1 else none

/-- `sub_key` from the source: if the key contains `{` (byte 123) and a
later `}` (byte 125) with a non-empty span between them, that span is
the routing key; otherwise the whole key is used. -/
def sub_key (key : List Nat) : List Nat :=
  match position (fun b => b == 123) key with
  | none => key
  | some opened =>
    let after_open := opened + 1
    match position (fun b => b == 125) (key.drop after_open) with
    | none => key
    | some close_offset =>
      if close_offset ≠ 0 then (key.drop after_open).take close_offset else key

/-- `slot_for_packed_command` from the source. -/
def slot_for_packed_command (cmd : List Nat) : Option Nat :=
  (command_key cmd).map fun key => crc16_xmodem (sub_key key) % SLOT_SIZE

/-- The slot assigned to a raw key, as `slot_for_packed_command` computes
it once the key has been extracted. -/
def slot_of_key (key : List Nat) : Nat :=
  crc16_xmodem (sub_key key) % SLOT_SIZE

/-- The packed command of scenario S1 (`tests::slot`, first vector). -/
def packedS1 : List Nat :=
  [42, 50, 13, 10, 36, 54, 13, 10, 69, 88, 73, 83, 84, 83, 13, 10, 36, 49, 54, 13, 10,
   244, 93, 23, 40, 126, 127, 253, 33, 89, 47, 185, 204, 171, 249, 96, 139, 13, 10]

/-- The packed command of scenario S2 (`tests::slot`, second vector). -/
def packedS2 : List Nat :=
  [42, 54, 13, 10, 36, 51, 13, 10, 83, 69, 84, 13, 10, 36, 49, 54, 13, 10, 36, 241,
   197, 111, 180, 254, 5, 175, 143, 146, 171, 39, 172, 23, 164, 145, 13, 10, 36, 52,
   13, 10, 116, 114, 117, 101, 13, 10, 36, 50, 13, 10, 78, 88, 13, 10, 36, 50, 13, 10,
   80, 88, 13, 10, 36, 55, 13, 10, 49, 56, 48, 48, 48, 48, 48, 13, 10]

/-- The packed command of scenario S3 (`tests::slot`, third vector). -/
def packedS3 : List Nat :=
  [42, 54, 13, 10, 36, 51, 13, 10, 83, 69, 84, 13, 10, 36, 49, 54, 13, 10, 169, 233,
   247, 59, 50, 247, 100, 232, 123, 140, 2, 101, 125, 221, 66, 170, 13, 10, 36, 52,
   13, 10, 116, 114, 117, 101, 13, 10, 36, 50, 13, 10, 78, 88, 13, 10, 36, 50, 13, 10,
   80, 88, 13, 10, 36, 55, 13, 10, 49, 56, 48, 48, 48, 48, 48, 13, 10]

set_option maxRecDepth 20000 in
/-- C1: for the three concrete packed commands of scenarios S1, S2 and
S3, `slot_for_packed_command` returns `some 964`, `some 8352` and
`some 5210` respectively. -/
theorem C1_slot_vectors :
    slot_for_packed_command packedS1 = some 964 ∧
    slot_for_packed_command packedS2 = some 8352 ∧
    slot_for_packed_command packedS3 = some 5210 := by
  decide

theorem position_eq_none_of (p : Nat → Bool) (l : List Nat) (h : ∀ b ∈ l, ¬ p b) :
    position p l = none := by
  induction l with
  | nil => rfl
  | cons a t ih =>
    have ha : ¬ p a := h a (List.mem_cons_self a t)
    simp only [position, if_neg ha,
      ih (fun b hb => h b (List.mem_cons_of_mem a hb)), Option.map_none']

theorem position_append_cons (p : Nat → Bool) (pre : List Nat) (x : Nat) (rest : List Nat)
    (hpre : ∀ b ∈ pre, ¬ p b) (hx : p x) :
    position p (pre ++ x :: rest) = some pre.length := by
  induction pre with
  | nil => simp [position, hx]
  | cons a t ih =>
    have ha : ¬ p a := hpre a (List.mem_cons_self a t)
    simp only [List.cons_append, position, if_neg ha, List.append_eq,
      ih (fun b hb => hpre b (List.mem_cons_of_mem a hb)), Option.map_some', List.length_cons]

theorem drop_append_cons (pre : List Nat) (x : Nat) (rest : List Nat) :
    (pre ++ x :: rest).drop (pre.length + 1) = rest := by
  induction pre with
  | nil => simp
  | cons a t ih =>
    simp only [List.cons_append, List.length_cons, List.drop_succ_cons]
    exact ih

/-- The second half of the hash-tag rule: when the first `{` has no `}`
strictly after it, or the span between them is empty, the key is hashed
unchanged. -/
theorem sub_key_unchanged (key : List Nat) (opened : Nat)
    (h1 : position (fun b => b == 123) key = some opened)
    (h2 : position (fun b => b == 125) (key.drop (opened + 1)) = none ∨
      position (fun b => b == 125) (key.drop (opened + 1)) = some 0) :
    sub_key key = key := by
  rcases h2 with h2 | h2 <;> simp [sub_key, h1, h2]

/-- A key containing no `}` is its own routing key. -/
theorem sub_key_eq_self_of_no_close (key : List Nat) (h : (125 : Nat) ∉ key) :
    sub_key key = key := by
  cases hpos : position (fun b => b == 123) key with
  | none => simp [sub_key, hpos]
  | some opened =>
    have hnone : position (fun b => b == 125) (key.drop (opened + 1)) = none := by
      refine position_eq_none_of _ _ (fun b hb => ?_)
      simp only [beq_iff_eq]
      intro hb125
      exact h (hb125 ▸ List.drop_subset _ _ hb)
    simp [sub_key, hpos, hnone]

theorem sub_key_hashtag (pre tagB suf : List Nat)
    (htag : tagB ≠ []) (hpre : (123 : Nat) ∉ pre) (htagc : (125 : Nat) ∉ tagB) :
    sub_key (pre ++ 123 :: (tagB ++ 125 :: suf)) = tagB := by
  have h1 : position (fun b => b == 123) (pre ++ 123 :: (tagB ++ 125 :: suf))
      = some pre.length := by
    refine position_append_cons _ _ _ _ (fun b hb => ?_) (by simp)
    simp only [beq_iff_eq]
    intro hb123
    exact hpre (hb123 ▸ hb)
  have h2 : (pre ++ 123 :: (tagB ++ 125 :: suf)).drop (pre.length + 1)
      = tagB ++ 125 :: suf := drop_append_cons _ _ _
  have h3 : position (fun b => b == 125) (tagB ++ 125 :: suf) = some tagB.length := by
    refine position_append_cons _ _ _ _ (fun b hb => ?_) (by simp)
    simp only [beq_iff_eq]
    intro hb125
    exact htagc (hb125 ▸ hb)
  have hlen : tagB.length ≠ 0 := fun h0 => htag (List.eq_nil_of_length_eq_zero h0)
  simp only [sub_key, h1, h2, h3]
  rw [if_pos hlen]
  exact List.take_left tagB (125 :: suf)

/-- C2 counterexample: the key `{a}}` has the form `prefix{tag}suffix`
with `prefix = ""`, `tag = "a}"` (non-empty), `suffix = ""`, and the
empty `prefix` contains no `{`; yet the routing key is `"a"`, not the
tag `"a}"`, and the slots of the key and of the tag alone differ. -/
theorem C2_counterexample :
    ([] : List Nat) ++ 123 :: ([97, 125] ++ 125 :: []) = [123, 97, 125, 125] ∧
    ([97, 125] : List Nat) ≠ [] ∧
    (123 : Nat) ∉ ([] : List Nat) ∧
    sub_key [123, 97, 125, 125] ≠ [97, 125] ∧
    slot_of_key [123, 97, 125, 125] ≠ slot_of_key [97, 125] := by
  decide

/-- C2 (amended): for every key of the form `prefix{tag}suffix` where
`tag` is non-empty, `prefix` contains no `{`, and `tag` contains no `}`,
the routing key is exactly `tag` and the slot equals that of `tag`
alone; and whenever the first `{` of a key has no `}` strictly after it,
or the span between them is empty, the whole key is hashed unchanged. -/
theorem C2_hash_tag_rule (pre tagB suf : List Nat)
    (htag : tagB ≠ []) (hpre : (123 : Nat) ∉ pre) (htagc : (125 : Nat) ∉ tagB) :
    sub_key (pre ++ 123 :: (tagB ++ 125 :: suf)) = tagB ∧
    slot_of_key (pre ++ 123 :: (tagB ++ 125 :: suf)) = slot_of_key tagB ∧
    ∀ key opened, position (fun b => b == 123) key = some opened →
      (position (fun b => b == 125) (key.drop (opened + 1)) = none ∨
        position (fun b => b == 125) (key.drop (opened + 1)) = some 0) →
      sub_key key = key := by
  refine ⟨sub_key_hashtag pre tagB suf htag hpre htagc, ?_, sub_key_unchanged⟩
  unfold slot_of_key
  rw [sub_key_hashtag pre tagB suf htag hpre htagc,
    sub_key_eq_self_of_no_close tagB htagc]

/-- Witness for C2 at `prefix = ""`, `tag = "a"`, `suffix = ""`. -/
theorem C2_hash_tag_rule_witness :
    sub_key ([] ++ 123 :: ([97] ++ 125 :: [])) = [97] :=
  (C2_hash_tag_rule [] [97] [] (by decide) (by decide) (by decide)).1

/-- The kinds of `redis::RedisError` the core produces or inspects. -/
inductive ErrorKind
  | ResponseError
  | IoError
  | InvalidClientConfig
  | BrokenPipe
  | ExtensionError
  deriving DecidableEq, Repr

/-- A redis error: its kind, its description, and the optional extension
error code of a server error reply (`MOVED`, `ASK`, `TRYAGAIN`,
`CLUSTERDOWN`, or any other code). -/
structure RedisErr where
  kind : ErrorKind
  desc : String
  code : Option String
  deriving DecidableEq, Repr

/-- A slot record of a `CLUSTER SLOTS` discovery reply (`struct Slot`).
`start` and `end_` are `u16` values, hence below 65536. -/
structure Slot where
  start : Nat
  end_ : Nat
  master : String
  replicas : List String
  deriving DecidableEq, Repr

/-- Stable insertion of a record into a list sorted by `start`. -/
def insertByStart (s : Slot) : List Slot → List Slot
  | [] => [s]
  | t :: ts => if s.start ≤ t.start then s :: t :: ts else t :: insertByStart s ts

/-- `slots_data.sort_by_key(|slot_data| slot_data.start)` from the
source: a stable sort by `start` (Rust's `sort_by_key` is stable, and
stable sorts under the same key agree). -/
def sortByStart : List Slot → List Slot
  | [] => []
  | s :: rest => insertByStart s (sortByStart rest)

/-- The error reported for overlapping or gapped slot ranges. -/
def overlapErr : RedisErr :=
  ⟨.ResponseError, "Slot refresh error. Received overlapping slots", none⟩

/-- The error reported when the ranges stop short of slot 16383. -/
def lacksErr : RedisErr :=
  ⟨.ResponseError, "Slot refresh error. Lacks the slots", none⟩

/-- The `try_fold` of `build_slot_map`: walk the sorted records,
requiring each `start` to equal the accumulator (initially 0), and pass
on `end + 1`.  The accumulator is a `u16`, so the increment wraps at
65536. -/
def tryFoldSlots (prev : Nat) : List Slot → Except RedisErr Nat
  | [] => .ok prev
  | s :: rest =>
    if prev ≠ s.start then .error overlapErr
    else tryFoldSlots ((s.end_ + 1) % 65536) rest

/-- Insertion into an ordered map (`BTreeMap`) represented as an
association list sorted by key; an equal key is overwritten. -/
def btInsert (m : List (Nat × String)) (k : Nat) (v : String) : List (Nat × String) :=
  match m with
  | [] => [(k, v)]
  | (k1, v1) :: rest =>
    if k < k1 then (k, v) :: (k1, v1) :: rest
    else if k = k1 then (k, v) :: rest
    else (k1, v1) :: btInsert rest k v

/-- `collect()` of an iterator of pairs into a `BTreeMap`: successive
insertion, later pairs overwriting earlier ones with an equal key. -/
def btFromList (l : List (Nat × String)) : List (Nat × String) :=
  l.foldl (fun m kv => btInsert m kv.1 kv.2) []

/-- `Pipeline::build_slot_map` from the source: sort the records by
`start`, check that consecutive records tile the slot space, check the
final accumulator equals `SLOT_SIZE`, and collect the `end → master`
map. -/
def build_slot_map (slots_data : List Slot) : Except RedisErr (List (Nat × String)) :=
  match tryFoldSlots 0 (sortByStart slots_data) with
  | .error e => .error e
  | .ok last_slot =>
    if last_slot ≠ SLOT_SIZE then .error lacksErr
    else .ok (btFromList ((sortByStart slots_data).map fun s => (s.end_, s.master)))

/-- The claim's tiling condition on the already-sorted records: the
accumulated previous end + 1 (starting at 0) equals each `start`. -/
def contiguous (prev : Nat) : List Slot → Bool
  | [] => true
  | s :: rest => prev == s.start && contiguous (s.end_ + 1) rest

/-- The `end` of the last record, if any. -/
def lastEnd? : List Slot → Option Nat
  | [] => none
  | [s] => some s.end_
  | _ :: t :: ts => lastEnd? (t :: ts)

/-- The claim's success condition: after sorting by `start` the records
are non-empty, the first start is 0, each start equals the previous
end + 1, and the last end is 16383. -/
def tilesFullRange (records : List Slot) : Bool :=
  !(sortByStart records).isEmpty && contiguous 0 (sortByStart records) &&
    (lastEnd? (sortByStart records) == some 16383)

/-- Whether an `Except` is a success. -/
def exceptIsOk : Except ε α → Bool
  | .ok _ => true
  | .error _ => false

theorem insertByStart_perm (s : Slot) (l : List Slot) :
    (insertByStart s l).Perm (s :: l) := by
  induction l with
  | nil => exact List.Perm.refl _
  | cons t ts ih =>
    by_cases h : s.start ≤ t.start
    · simp only [insertByStart, if_pos h]
      exact List.Perm.refl _
    · simp only [insertByStart, if_neg h]
      exact (ih.cons t).trans (List.Perm.swap s t ts)

theorem sortByStart_perm (l : List Slot) : (sortByStart l).Perm l := by
  induction l with
  | nil => exact List.Perm.refl _
  | cons s rest ih => exact (insertByStart_perm s (sortByStart rest)).trans (ih.cons s)

theorem mem_sortByStart {s : Slot} {l : List Slot} :
    s ∈ sortByStart l ↔ s ∈ l := (sortByStart_perm l).mem_iff

/-- The accumulated value produced by a successful walk. -/
def natLast (prev : Nat) : List Slot → Nat
  | [] => prev
  | s :: rest => natLast (s.end_ + 1) rest

theorem lastEnd?_cons (t : Slot) (ts : List Slot) : ∃ e, lastEnd? (t :: ts) = some e := by
  induction ts generalizing t with
  | nil => exact ⟨t.end_, rfl⟩
  | cons u us ih =>
    obtain ⟨e, he⟩ := ih u
    exact ⟨e, by rw [show lastEnd? (t :: u :: us) = lastEnd? (u :: us) from rfl, he]⟩

theorem natLast_eq (l : List Slot) : ∀ prev, natLast prev l =
    match lastEnd? l with
    | none => prev
    | some e => e + 1 := by
  induction l with
  | nil => intro prev; rfl
  | cons s rest ih =>
    intro prev
    cases rest with
    | nil => rfl
    | cons t ts =>
      obtain ⟨e, he⟩ := lastEnd?_cons t ts
      show natLast (s.end_ + 1) (t :: ts) = _
      rw [ih, he, show lastEnd? (s :: t :: ts) = lastEnd? (t :: ts) from rfl, he]

/-- When no record's `end` is 65535, the `u16` increment never wraps and
the walk succeeds exactly on contiguous records, producing the final
accumulator; on non-contiguous records it fails with the overlap
error. -/
theorem tryFoldSlots_eq (l : List Slot) (h : ∀ s ∈ l, s.end_ < 65535) :
    ∀ prev, tryFoldSlots prev l =
      if contiguous prev l then .ok (natLast prev l) else .error overlapErr := by
  induction l with
  | nil => intro prev; rfl
  | cons s rest ih =>
    intro prev
    have hs : s.end_ < 65535 := h s (List.mem_cons_self s rest)
    have hrest : ∀ t ∈ rest, t.end_ < 65535 :=
      fun t ht => h t (List.mem_cons_of_mem s ht)
    have hmod : (s.end_ + 1) % 65536 = s.end_ + 1 := Nat.mod_eq_of_lt (by omega)
    by_cases hp : prev = s.start
    · subst hp
      simp only [tryFoldSlots, ne_eq, not_true_eq_false, if_false, hmod]
      rw [show contiguous s.start (s :: rest) = contiguous (s.end_ + 1) rest by
        simp [contiguous]]
      rw [show natLast s.start (s :: rest) = natLast (s.end_ + 1) rest from rfl]
      exact ih hrest (s.end_ + 1)
    · have hc : contiguous prev (s :: rest) = false := by simp [contiguous, hp]
      simp only [tryFoldSlots, ne_eq, hp, not_false_eq_true, if_true, hc,
        Bool.false_eq_true, if_false]

theorem contiguous_pairwise (l : List Slot) (hse : ∀ s ∈ l, s.start ≤ s.end_) :
    ∀ prev, contiguous prev l = true →
      List.Pairwise (fun a b : Slot => a.end_ < b.end_) l ∧ ∀ s ∈ l, prev ≤ s.end_ := by
  induction l with
  | nil => intro prev _; exact ⟨List.Pairwise.nil, by simp⟩
  | cons s rest ih =>
    intro prev hc
    simp only [contiguous, Bool.and_eq_true, beq_iff_eq] at hc
    obtain ⟨hps, hrest⟩ := hc
    have hse' : ∀ t ∈ rest, t.start ≤ t.end_ :=
      fun t ht => hse t (List.mem_cons_of_mem s ht)
    obtain ⟨hpw, hge⟩ := ih hse' (s.end_ + 1) hrest
    have hsend : s.start ≤ s.end_ := hse s (List.mem_cons_self s rest)
    refine ⟨List.Pairwise.cons (fun t ht => ?_) hpw, ?_⟩
    · have := hge t ht; omega
    · intro t ht
      rcases List.mem_cons.1 ht with rfl | ht
      · omega
      · have := hge t ht; omega

theorem btInsert_append (m : List (Nat × String)) (k : Nat) (v : String)
    (h : ∀ kv ∈ m, kv.1 < k) : btInsert m k v = m ++ [(k, v)] := by
  induction m with
  | nil => rfl
  | cons kv rest ih =>
    have h1 : kv.1 < k := h kv (List.mem_cons_self kv rest)
    obtain ⟨k1, v1⟩ := kv
    simp only [btInsert, if_neg (by omega : ¬ k < k1), if_neg (by omega : ¬ k = k1),
      List.cons_append]
    rw [ih (fun kv hkv => h kv (List.mem_cons_of_mem _ hkv))]

theorem btFromList_aux (l acc : List (Nat × String))
    (hlt : ∀ kv ∈ l, ∀ kv1 ∈ acc, kv1.1 < kv.1)
    (hpw : List.Pairwise (fun a b : Nat × String => a.1 < b.1) l) :
    l.foldl (fun m kv => btInsert m kv.1 kv.2) acc = acc ++ l := by
  induction l generalizing acc with
  | nil => simp
  | cons kv rest ih =>
    simp only [List.foldl_cons]
    rw [btInsert_append acc kv.1 kv.2 (fun kv1 h1 => hlt kv (List.mem_cons_self kv rest) kv1 h1)]
    rw [ih (acc ++ [(kv.1, kv.2)]) ?_ (List.pairwise_cons.1 hpw).2]
    · simp
    · intro kv2 h2 kv1 h1
      rcases List.mem_append.1 h1 with h1 | h1
      · exact hlt kv2 (List.mem_cons_of_mem kv h2) kv1 h1
      · rcases List.mem_singleton.1 h1 with rfl
        exact (List.pairwise_cons.1 hpw).1 kv2 h2

theorem btFromList_eq_self (l : List (Nat × String))
    (hpw : List.Pairwise (fun a b : Nat × String => a.1 < b.1) l) :
    btFromList l = l := by
  unfold btFromList
  rw [btFromList_aux l [] (by simp) hpw]
  simp

theorem natLast_eq_some {l : List Slot} {e : Nat} (he : lastEnd? l = some e) (prev : Nat) :
    natLast prev l = e + 1 := by
  rw [natLast_eq l prev, he]

/-- `build_slot_map` characterised by the tiling walk, when the `u16`
accumulator never wraps. -/
theorem build_slot_map_eq (records : List Slot)
    (h : ∀ s ∈ sortByStart records, s.end_ < 65535) :
    build_slot_map records =
      if contiguous 0 (sortByStart records) = true then
        if natLast 0 (sortByStart records) ≠ SLOT_SIZE then .error lacksErr
        else .ok (btFromList ((sortByStart records).map fun s => (s.end_, s.master)))
      else .error overlapErr := by
  unfold build_slot_map
  rw [tryFoldSlots_eq _ h 0]
  by_cases hc : contiguous 0 (sortByStart records) = true
  · rw [if_pos hc, if_pos hc]
  · rw [if_neg hc, if_neg hc]

theorem tryFoldSlots_error (l : List Slot) :
    ∀ prev e, tryFoldSlots prev l = .error e → e = overlapErr := by
  induction l with
  | nil => intro prev e h; exact absurd h (by simp [tryFoldSlots])
  | cons s rest ih =>
    intro prev e h
    by_cases hp : prev ≠ s.start
    · simp only [tryFoldSlots, if_pos hp, Except.error.injEq] at h
      exact h.symm
    · simp only [tryFoldSlots, if_neg hp] at h
      exact ih _ e h

/-- C3 counterexample: the records `{start 0, end 16383, master a}` and
`{start 16384, end 16383, master b}` make `build_slot_map` succeed (the
degenerate second range passes both walk checks), yet the resulting map
has a single entry: record `a`'s `end → master` entry `(16383, a)` is
overwritten by record `b`'s, so the map does not contain exactly one
entry per record. -/
theorem C3_counterexample :
    build_slot_map [⟨0, 16383, "a", []⟩, ⟨16384, 16383, "b", []⟩]
      = .ok [(16383, "b")] ∧
    ([⟨0, 16383, "a", []⟩, ⟨16384, 16383, "b", []⟩] : List Slot).length = 2 ∧
    ¬ ((16383, "a") ∈ [((16383 : Nat), "b")]) := by
  refine ⟨rfl, rfl, ?_⟩
  simp

/-- C3 (amended): for slot records each satisfying `start ≤ end` and
`end < 65535` (the `u16` walk accumulator never wraps),
`build_slot_map` succeeds exactly when, after stable sorting by `start`,
the records are non-empty, the first start is 0, each start equals the
previous end + 1, and the last end is 16383; every failure is a
`ResponseError`; and on success the map consists of exactly the
`(end, master)` entries of the records, one per record. -/
theorem C3_build_slot_map_tiling (records : List Slot)
    (hb : ∀ s ∈ records, s.start ≤ s.end_ ∧ s.end_ < 65535) :
    exceptIsOk (build_slot_map records) = tilesFullRange records ∧
    (∀ e, build_slot_map records = .error e → e.kind = .ResponseError) ∧
    ∀ m, build_slot_map records = .ok m →
      m = (sortByStart records).map (fun s => (s.end_, s.master)) ∧
      m.Perm (records.map fun s => (s.end_, s.master)) ∧
      m.length = records.length := by
  have hend : ∀ s ∈ sortByStart records, s.end_ < 65535 :=
    fun s hs => (hb s (mem_sortByStart.1 hs)).2
  have hse : ∀ s ∈ sortByStart records, s.start ≤ s.end_ :=
    fun s hs => (hb s (mem_sortByStart.1 hs)).1
  have heq := build_slot_map_eq records hend
  refine ⟨?_, ?_, ?_⟩
  · rw [heq]
    unfold tilesFullRange
    by_cases hc : contiguous 0 (sortByStart records) = true
    · rw [if_pos hc, hc]
      cases hsort : sortByStart records with
      | nil =>
        simp [natLast, exceptIsOk, SLOT_SIZE, lastEnd?]
      | cons a t =>
        obtain ⟨e, he⟩ := lastEnd?_cons a t
        rw [natLast_eq_some he 0, he]
        by_cases h16 : e = 16383
        · subst h16
          rw [if_neg (by simp [SLOT_SIZE])]
          simp [exceptIsOk]
        · rw [if_pos (by simp only [SLOT_SIZE, ne_eq]; omega)]
          simp [exceptIsOk, h16]
    · rw [if_neg hc]
      simp only [Bool.not_eq_true] at hc
      simp [exceptIsOk, hc]
  · intro e h
    rw [heq] at h
    by_cases hc : contiguous 0 (sortByStart records) = true
    · rw [if_pos hc] at h
      by_cases hl : natLast 0 (sortByStart records) ≠ SLOT_SIZE
      · rw [if_pos hl] at h
        cases h
        rfl
      · rw [if_neg hl] at h
        cases h
    · rw [if_neg hc] at h
      cases h
      rfl
  · intro m hm
    rw [heq] at hm
    by_cases hc : contiguous 0 (sortByStart records) = true
    · rw [if_pos hc] at hm
      by_cases hl : natLast 0 (sortByStart records) ≠ SLOT_SIZE
      · rw [if_pos hl] at hm
        cases hm
      · rw [if_neg hl] at hm
        have hpw : List.Pairwise (fun a b : Slot => a.end_ < b.end_) (sortByStart records) :=
          (contiguous_pairwise _ hse 0 hc).1
        have hpw2 : List.Pairwise (fun a b : Nat × String => a.1 < b.1)
            ((sortByStart records).map fun s => (s.end_, s.master)) :=
          List.pairwise_map.2 hpw
        have hmap : m = (sortByStart records).map fun s => (s.end_, s.master) := by
          cases hm
          exact btFromList_eq_self _ hpw2
        refine ⟨hmap, ?_, ?_⟩
        · rw [hmap]
          exact (sortByStart_perm records).map _
        · rw [hmap]
          simp [(sortByStart_perm records).length_eq]
    · rw [if_neg hc] at hm
      cases hm

/-- Witness for C3 at the single full-range record. -/
theorem C3_build_slot_map_tiling_witness :
    exceptIsOk (build_slot_map [⟨0, 16383, "a", []⟩]) = tilesFullRange [⟨0, 16383, "a", []⟩] :=
  (C3_build_slot_map_tiling [⟨0, 16383, "a", []⟩]
    (fun s hs => by
      rcases List.mem_singleton.1 hs with rfl
      exact ⟨by decide, by decide⟩)).1

/-- The `take_while` with a `found_slots` flag in `refresh_slots`: the
stream of per-connection query results up to and including the first
success. -/
def takeUntilOk : List (Except RedisErr α) → List (Except RedisErr α)
  | [] => []
  | .ok v :: _ => [.ok v]
  | .error e :: rest => .error e :: takeUntilOk rest

/-- The `IoError` produced when the snapshot yields no result at all. -/
def noConnErr : RedisErr := ⟨.IoError, "No connections to refresh slots from", none⟩

/-- The `fold(None, ...)` of `refresh_slots` followed by
`ok_or_else(...)?`: the last taken result, or `noConnErr` when the
snapshot stream was empty. -/
def lastResult : List (Except RedisErr α) → Except RedisErr α
  | [] => .error noConnErr
  | [r] => r
  | _ :: r :: rest => lastResult (r :: rest)

/-- The query stage of `refresh_slots`: the first successful slot map,
or the last failure, or `noConnErr` on an empty snapshot. -/
def queryStage (results : List (Except RedisErr α)) : Except RedisErr α :=
  lastResult (takeUntilOk results)

theorem takeUntilOk_all_errors (results : List (Except RedisErr α))
    (h : ∀ r ∈ results, exceptIsOk r = false) : takeUntilOk results = results := by
  induction results with
  | nil => rfl
  | cons r rest ih =>
    cases r with
    | ok v => exact absurd (h _ (List.mem_cons_self _ _)) (by simp [exceptIsOk])
    | error e =>
      show Except.error e :: takeUntilOk rest = _
      rw [ih (fun r hr => h r (List.mem_cons_of_mem _ hr))]

theorem lastResult_append (rs : List (Except RedisErr α)) (r0 : Except RedisErr α) :
    lastResult (rs ++ [r0]) = r0 := by
  induction rs with
  | nil => rfl
  | cons r rest ih =>
    cases hr : rest ++ [r0] with
    | nil => exact absurd hr (by simp)
    | cons x xs =>
      show lastResult (r :: rest ++ [r0]) = r0
      rw [show r :: rest ++ [r0] = r :: (rest ++ [r0]) from rfl, hr,
        show lastResult (r :: x :: xs) = lastResult (x :: xs) from rfl, ← hr, ih]

/-- C5 (amended): when every connection of the (non-empty) pool snapshot
fails to yield a well-formed slot list, the refresh query stage fails
with the LAST connection's error, not with `noConnErr`; the
`IoError` "No connections to refresh slots from" arises exactly when
the snapshot itself is empty. -/
theorem C5_refresh_all_fail (results : List (Except RedisErr (List (Nat × String))))
    (hall : ∀ r ∈ results, exceptIsOk r = false) :
    (results = [] → queryStage results = .error noConnErr) ∧
    ∀ rs r0, results = rs ++ [r0] → queryStage results = r0 := by
  constructor
  · rintro rfl
    rfl
  · rintro rs r0 rfl
    unfold queryStage
    rw [takeUntilOk_all_errors _ hall, lastResult_append]

/-- Witness for C5 at a one-element snapshot whose query fails. -/
theorem C5_refresh_all_fail_witness :
    queryStage [.error (⟨.ResponseError, "Slot refresh error.", none⟩ : RedisErr)]
      = (.error ⟨.ResponseError, "Slot refresh error.", none⟩
          : Except RedisErr (List (Nat × String))) :=
  (C5_refresh_all_fail [.error ⟨.ResponseError, "Slot refresh error.", none⟩]
    (by intro r hr; rcases List.mem_singleton.1 hr with rfl; rfl)).2
    [] (.error ⟨.ResponseError, "Slot refresh error.", none⟩) rfl

/-- Association-list lookup, the model of `HashMap::get`. -/
def alookup {C : Type} : List (String × C) → String → Option C
  | [], _ => none
  | (k, v) :: rest, a => if k = a then some v else alookup rest a

/-- Association-list removal, the model of `HashMap::remove` (a
`HashMap` holds each key at most once, so filtering is equivalent). -/
def aremove {C : Type} (l : List (String × C)) (a : String) : List (String × C) :=
  l.filter fun kv => kv.1 != a

/-- The environment a refresh runs against: the parsed `CLUSTER SLOTS`
reply each connection returns, whether pinging the pooled connection of
an endpoint succeeds, and the result of `connect_and_check` on an
endpoint.  These model the external node connections, which the spec
declares collaborators outside the core. -/
structure World (C : Type) where
  slotsOf : C → Except RedisErr (List Slot)
  checkOk : String → Bool
  connectFresh : String → Option C

/-- The per-connection query of `refresh_slots`:
`get_slots(conn).and_then(build_slot_map)`. -/
def querySlots {C : Type} (w : World C) (conn : C) : Except RedisErr (List (Nat × String)) :=
  match w.slotsOf conn with
  | .error e => .error e
  | .ok v => build_slot_map v

/-- One step of the pool-reconciliation fold of `refresh_slots`: skip
endpoints already reconnected; reuse a pooled connection whose ping
succeeds; otherwise open a fresh connection; on total failure the
endpoint is silently left out of the new pool. -/
def reconcileStep {C : Type} (w : World C) :
    List (String × C) × List (String × C) → String → List (String × C) × List (String × C) :=
  fun st addr =>
    if (alookup st.2 addr).isSome then st
    else
      match alookup st.1 addr with
      | some conn =>
        if w.checkOk addr then (aremove st.1 addr, st.2 ++ [(addr, conn)])
        else
          match w.connectFresh addr with
          | some c => (aremove st.1 addr, st.2 ++ [(addr, c)])
          | none => (aremove st.1 addr, st.2)
      | none =>
        match w.connectFresh addr with
        | some c => (st.1, st.2 ++ [(addr, c)])
        | none => (st.1, st.2)

/-- The pool-reconciliation fold of `refresh_slots`, walking the master
endpoints of the new slot map with the old pool as working set. -/
def reconcile {C : Type} (w : World C) (pool : List (String × C)) (masters : List String) :
    List (String × C) :=
  (masters.foldl (reconcileStep w) (pool, [])).2

/-- The master endpoints of a slot map, in map order (`slots.values()`). -/
def slotMapValues (m : List (Nat × String)) : List String := m.map Prod.snd

/-- `Pipeline::refresh_slots` as a function of the environment: query
the snapshot connections for a slot map, then reconcile the pool with
the new masters.  Success never requires the masters to be
connectable — reconciliation failures only shrink the pool. -/
def refresh_slots_result {C : Type} (w : World C) (pool : List (String × C)) :
    Except RedisErr (List (Nat × String) × List (String × C)) :=
  match queryStage (pool.map fun kv => querySlots w kv.2) with
  | .error e => .error e
  | .ok slots => .ok (slots, reconcile w pool (slotMapValues slots))

/-- Whether reconciliation obtains a connection for an endpoint: a
pooled endpoint is kept when its ping succeeds or a fresh connection
can be opened; an unpooled endpoint needs a fresh connection. -/
def connectSucceeds {C : Type} (w : World C) (pool : List (String × C)) (addr : String) : Bool :=
  if (alookup pool addr).isSome then w.checkOk addr || (w.connectFresh addr).isSome
  else (w.connectFresh addr).isSome

theorem alookup_aremove_ne {C : Type} (l : List (String × C)) (a b : String) (h : a ≠ b) :
    alookup (aremove l a) b = alookup l b := by
  induction l with
  | nil => rfl
  | cons kv rest ih =>
    obtain ⟨k, v⟩ := kv
    by_cases hk : k = a
    · subst hk
      have h1 : aremove ((k, v) :: rest) k = aremove rest k := by simp [aremove]
      rw [h1, ih]
      simp [alookup, h]
    · have h1 : aremove ((k, v) :: rest) a = (k, v) :: aremove rest a := by
        simp [aremove, hk]
      rw [h1]
      show (if k = b then some v else alookup (aremove rest a) b) = _
      by_cases hb : k = b
      · simp [alookup, hb]
      · simp [alookup, hb, ih]

theorem alookup_append_single {C : Type} (l : List (String × C)) (m : String) (c : C)
    (b : String) :
    alookup (l ++ [(m, c)]) b =
      match alookup l b with
      | some v => some v
      | none => if m = b then some c else none := by
  induction l with
  | nil => rfl
  | cons kv rest ih =>
    obtain ⟨k, v⟩ := kv
    by_cases hk : k = b
    · simp [alookup, hk]
    · simp only [List.cons_append, alookup, if_neg hk]
      exact ih

/-- The reconciliation fold characterised: an endpoint ends up in the
new pool exactly when it was already reconnected or it is a walked
master for which a healthy connection could be obtained.  The invariant
carried over the working set is that every endpoint is reconnected, or
untouched in the working set, or failed both its ping and its fresh
connect. -/
theorem reconcile_aux {C : Type} (w : World C) (pool : List (String × C))
    (masters : List String) :
    ∀ conns newConns,
      (∀ b, (alookup newConns b).isSome = true ∨ alookup conns b = alookup pool b ∨
        (w.checkOk b = false ∧ w.connectFresh b = none)) →
      ∀ a, (alookup (masters.foldl (reconcileStep w) (conns, newConns)).2 a).isSome = true ↔
        ((alookup newConns a).isSome = true ∨
          (a ∈ masters ∧ connectSucceeds w pool a = true)) := by
  induction masters with
  | nil =>
    intro conns newConns hinv a
    simp
  | cons m rest ih =>
    intro conns newConns hinv a
    simp only [List.foldl_cons]
    by_cases h1 : (alookup newConns m).isSome = true
    · have hstep : reconcileStep w (conns, newConns) m = (conns, newConns) := by
        simp [reconcileStep, h1]
      rw [hstep, ih conns newConns hinv a]
      constructor
      · rintro (h | ⟨ha, hs⟩)
        · exact Or.inl h
        · exact Or.inr ⟨List.mem_cons_of_mem m ha, hs⟩
      · rintro (h | ⟨ha, hs⟩)
        · exact Or.inl h
        · rcases List.mem_cons.1 ha with rfl | ha
          · exact Or.inl h1
          · exact Or.inr ⟨ha, hs⟩
    · have hinvAdd : ∀ (conns2 : List (String × C)) (c : C),
          (∀ b, b ≠ m → alookup conns2 b = alookup conns b) →
          ∀ b, (alookup (newConns ++ [(m, c)]) b).isSome = true ∨
            alookup conns2 b = alookup pool b ∨
            (w.checkOk b = false ∧ w.connectFresh b = none) := by
        intro conns2 c hc2 b
        by_cases hbm : b = m
        · subst hbm
          left
          rw [alookup_append_single]
          cases hnb : alookup newConns b with
          | some v => simp
          | none => simp
        · rcases hinv b with hd | hd | hd
          · left
            rw [alookup_append_single]
            cases hnb : alookup newConns b with
            | some v => simp
            | none => rw [hnb] at hd; simp at hd
          · right; left
            rw [hc2 b hbm]
            exact hd
          · right; right; exact hd
      have hiffAdd : ∀ (conns2 : List (String × C)) (c : C),
          (∀ b, b ≠ m → alookup conns2 b = alookup conns b) →
          connectSucceeds w pool m = true →
          ((alookup (rest.foldl (reconcileStep w) (conns2, newConns ++ [(m, c)])).2 a).isSome
              = true ↔
            ((alookup newConns a).isSome = true ∨
              (a ∈ m :: rest ∧ connectSucceeds w pool a = true))) := by
        intro conns2 c hc2 hsucc
        rw [ih conns2 (newConns ++ [(m, c)]) (hinvAdd conns2 c hc2) a]
        constructor
        · rintro (hn | ⟨ha, hs⟩)
          · rw [alookup_append_single] at hn
            cases hna : alookup newConns a with
            | some v => exact Or.inl (by simp [hna])
            | none =>
              rw [hna] at hn
              by_cases hma : m = a
              · subst hma
                exact Or.inr ⟨List.mem_cons_self m rest, hsucc⟩
              · simp [hma] at hn
          · exact Or.inr ⟨List.mem_cons_of_mem m ha, hs⟩
        · rintro (hn | ⟨ha, hs⟩)
          · left
            rw [alookup_append_single]
            cases hna : alookup newConns a with
            | some v => simp
            | none => rw [hna] at hn; simp at hn
          · rcases List.mem_cons.1 ha with rfl | ha
            · left
              rw [alookup_append_single]
              cases hna : alookup newConns a with
              | some v => simp
              | none => simp
            · exact Or.inr ⟨ha, hs⟩
      have hiffSkip : ∀ (conns2 : List (String × C)),
          (∀ b, (alookup newConns b).isSome = true ∨ alookup conns2 b = alookup pool b ∨
            (w.checkOk b = false ∧ w.connectFresh b = none)) →
          connectSucceeds w pool m = false →
          ((alookup (rest.foldl (reconcileStep w) (conns2, newConns)).2 a).isSome = true ↔
            ((alookup newConns a).isSome = true ∨
              (a ∈ m :: rest ∧ connectSucceeds w pool a = true))) := by
        intro conns2 hinv2 hfail
        rw [ih conns2 newConns hinv2 a]
        constructor
        · rintro (hn | ⟨ha, hs⟩)
          · exact Or.inl hn
          · exact Or.inr ⟨List.mem_cons_of_mem m ha, hs⟩
        · rintro (hn | ⟨ha, hs⟩)
          · exact Or.inl hn
          · rcases List.mem_cons.1 ha with rfl | ha
            · rw [hs] at hfail; cases hfail
            · exact Or.inr ⟨ha, hs⟩
      cases hcm : alookup conns m with
      | some conn =>
        by_cases hck : w.checkOk m = true
        · have hpoolm : alookup pool m = some conn := by
            rcases hinv m with hd | hd | hd
            · exact absurd hd h1
            · rw [← hd]; exact hcm
            · exact absurd hd.1 (by simp [hck])
          have hsucc : connectSucceeds w pool m = true := by
            simp [connectSucceeds, hpoolm, hck]
          have hstep : reconcileStep w (conns, newConns) m
              = (aremove conns m, newConns ++ [(m, conn)]) := by
            simp [reconcileStep, h1, hcm, hck]
          rw [hstep]
          exact hiffAdd (aremove conns m) conn
            (fun b hb => alookup_aremove_ne conns m b (fun he => hb he.symm)) hsucc
        · cases hfr : w.connectFresh m with
          | some c =>
            have hsucc : connectSucceeds w pool m = true := by
              rcases hinv m with hd | hd | hd
              · exact absurd hd h1
              · have hp : alookup pool m = some conn := by rw [← hd]; exact hcm
                simp [connectSucceeds, hp, hfr]
              · rw [hfr] at hd; simp at hd
            have hstep : reconcileStep w (conns, newConns) m
                = (aremove conns m, newConns ++ [(m, c)]) := by
              simp [reconcileStep, h1, hcm, hck, hfr]
            rw [hstep]
            exact hiffAdd (aremove conns m) c
              (fun b hb => alookup_aremove_ne conns m b (fun he => hb he.symm)) hsucc
          | none =>
            have hckf : w.checkOk m = false := by
              cases hb : w.checkOk m with
              | false => rfl
              | true => exact absurd hb hck
            have hsucc : connectSucceeds w pool m = false := by
              simp [connectSucceeds, hckf, hfr]
            have hstep : reconcileStep w (conns, newConns) m
                = (aremove conns m, newConns) := by
              simp [reconcileStep, h1, hcm, hck, hfr]
            rw [hstep]
            refine hiffSkip (aremove conns m) ?_ hsucc
            intro b
            by_cases hbm : b = m
            · subst hbm
              right; right
              exact ⟨hckf, hfr⟩
            · rcases hinv b with hd | hd | hd
              · left; exact hd
              · right; left
                rw [alookup_aremove_ne conns m b (fun he => hbm he.symm)]
                exact hd
              · right; right; exact hd
      | none =>
        cases hfr : w.connectFresh m with
        | some c =>
          have hsucc : connectSucceeds w pool m = true := by
            rcases hinv m with hd | hd | hd
            · exact absurd hd h1
            · have hp : alookup pool m = none := by rw [← hd]; exact hcm
              simp [connectSucceeds, hp, hfr]
            · rw [hfr] at hd; simp at hd
          have hstep : reconcileStep w (conns, newConns) m
              = (conns, newConns ++ [(m, c)]) := by
            simp [reconcileStep, h1, hcm, hfr]
          rw [hstep]
          exact hiffAdd conns c (fun b hb => rfl) hsucc
        | none =>
          have hsucc : connectSucceeds w pool m = false := by
            rcases hinv m with hd | hd | hd
            · exact absurd hd h1
            · have hp : alookup pool m = none := by rw [← hd]; exact hcm
              simp [connectSucceeds, hp, hfr]
            · simp [connectSucceeds, hd.1, hfr]
          have hstep : reconcileStep w (conns, newConns) m = (conns, newConns) := by
            simp [reconcileStep, h1, hcm, hfr]
          rw [hstep]
          exact hiffSkip conns hinv hsucc

/-- C4 counterexample: one pooled node `a` answers the topology query
with a slot map whose only master is `b`, but no fresh connection to
`b` can be opened.  The refresh still returns `Ok`, with `b` a value of
the returned slot map yet absent from the returned (empty) pool. -/
theorem C4_counterexample :
    refresh_slots_result
        (⟨fun _ => .ok [⟨0, 16383, "b", []⟩], fun _ => false, fun _ => none⟩ : World Nat)
        [("a", 0)]
      = .ok ([(16383, "b")], []) ∧
    "b" ∈ slotMapValues [(16383, "b")] ∧
    alookup ([] : List (String × Nat)) "b" = none := by
  refine ⟨rfl, ?_, rfl⟩
  simp [slotMapValues]

/-- C4 (amended): after a successful refresh, an endpoint is a key of
the returned connection pool exactly when it is a master of the
returned slot map for which a healthy connection could be obtained
(pooled with a successful ping, or freshly connectable); masters whose
connection attempts all fail are silently absent, and the pool holds no
endpoint outside the new masters. -/
theorem C4_refresh_pool {C : Type} (w : World C) (pool : List (String × C))
    (slots : List (Nat × String)) (pool2 : List (String × C))
    (h : refresh_slots_result w pool = .ok (slots, pool2)) :
    ∀ addr, (alookup pool2 addr).isSome = true ↔
      (addr ∈ slotMapValues slots ∧ connectSucceeds w pool addr = true) := by
  unfold refresh_slots_result at h
  cases hq : queryStage (pool.map fun kv => querySlots w kv.2) with
  | error e => rw [hq] at h; cases h
  | ok s =>
    rw [hq] at h
    simp only [Except.ok.injEq, Prod.mk.injEq] at h
    obtain ⟨h1, h2⟩ := h
    subst h1
    subst h2
    intro addr
    unfold reconcile
    rw [reconcile_aux w pool _ pool [] (fun b => Or.inr (Or.inl rfl)) addr]
    simp [alookup]

/-- Witness for C4: a healthy single-node refresh keeps the master
pooled. -/
theorem C4_refresh_pool_witness :
    (alookup (reconcile
        (⟨fun _ => .ok [⟨0, 16383, "b", []⟩], fun _ => true, fun _ => none⟩ : World Nat)
        [("b", 5)] ["b"]) "b").isSome = true := by
  have h := C4_refresh_pool
    (⟨fun _ => .ok [⟨0, 16383, "b", []⟩], fun _ => true, fun _ => none⟩ : World Nat)
    [("b", 5)] [(16383, "b")]
    (reconcile
      (⟨fun _ => .ok [⟨0, 16383, "b", []⟩], fun _ => true, fun _ => none⟩ : World Nat)
      [("b", 5)] ["b"]) rfl "b"
  exact h.2 ⟨by simp [slotMapValues], by simp [connectSucceeds, alookup]⟩

/-- A pending refresh future: the snapshot of pool connections taken
when `refresh_slots` was called (queried for topology) and the
moved-out pool map (reconciled on success). -/
structure RefreshFut (C : Type) where
  samples : List C
  moved : List (String × C)

/-- The pipeline's drive state: normal dispatch, or a refresh in
progress. -/
inductive PState (C : Type)
  | pollComplete
  | recover (fut : RefreshFut C)

/-- The pipeline fields the recovery machinery touches. -/
structure PipelineSt (C : Type) where
  connections : List (String × C)
  slots : List (Nat × String)
  state : PState C

/-- Calling `Pipeline::refresh_slots`: the samples are cloned from the
current pool, then the pool map is moved out by
`mem::replace(&mut self.connections, Default::default())`, leaving the
pipeline's pool empty while the future is pending. -/
def refreshCall {C : Type} (p : PipelineSt C) : RefreshFut C × PipelineSt C :=
  (⟨p.connections.map Prod.snd, p.connections⟩, { p with connections := [] })

/-- Resolving a refresh future against an environment: query the
sampled connections, then reconcile the moved-out pool with the new
masters. -/
def resolveRefresh {C : Type} (w : World C) (f : RefreshFut C) :
    Except RedisErr (List (Nat × String) × List (String × C)) :=
  match queryStage (f.samples.map (querySlots w)) with
  | .error e => .error e
  | .ok slots => .ok (slots, reconcile w f.moved (slotMapValues slots))

/-- The `Recover` arm of `poll_flush`: on success install the new
topology and return to `PollComplete`; on failure call `refresh_slots`
again and remain in `Recover`. -/
def recoverPoll {C : Type} (w : World C) (p : PipelineSt C) : PipelineSt C :=
  match p.state with
  | .pollComplete => p
  | .recover fut =>
    match resolveRefresh w fut with
    | .ok (slots, conns) =>
      { p with slots := slots, connections := conns, state := .pollComplete }
    | .error _ =>
      { (refreshCall p).2 with state := .recover (refreshCall p).1 }

/-- Entering `Recover` from the `PollComplete` arm after a request
reported a routing error: call `refresh_slots` and store the future. -/
def enterRecover {C : Type} (p : PipelineSt C) : PipelineSt C :=
  { (refreshCall p).2 with state := .recover (refreshCall p).1 }

theorem resolveRefresh_empty {C : Type} (w : World C) (fut : RefreshFut C)
    (h : fut.samples = []) : resolveRefresh w fut = .error noConnErr := by
  unfold resolveRefresh
  rw [h]
  rfl

theorem recoverPoll_recover {C : Type} (w : World C) (p : PipelineSt C) (fut : RefreshFut C)
    (h : p.state = .recover fut) :
    recoverPoll w p =
      match resolveRefresh w fut with
      | .ok (slots, conns) =>
        { p with slots := slots, connections := conns, state := .pollComplete }
      | .error _ => { (refreshCall p).2 with state := .recover (refreshCall p).1 } := by
  unfold recoverPoll
  rw [h]

theorem recoverPoll_stuck {C : Type} (w : World C) (p : PipelineSt C)
    (h : p.connections = [] ∧ ∃ fut, p.state = .recover fut ∧ fut.samples = []) :
    (recoverPoll w p).connections = [] ∧
    ∃ fut, (recoverPoll w p).state = .recover fut ∧ fut.samples = [] := by
  obtain ⟨hc, fut, hs, hsam⟩ := h
  have hres : resolveRefresh w fut = .error noConnErr := resolveRefresh_empty w fut hsam
  rw [recoverPoll_recover w p fut hs, hres]
  simp [refreshCall, hc]

/-- C8: `refresh_slots` empties the pipeline's connection pool at the
moment it is called; consequently, once one refresh future fails while
the pipeline is in `Recover`, every pipeline state reached by any
further sequence of recovery polls, in any environments, still has an
empty pool and a pending refresh whose snapshot is empty and which
fails in every environment — the pipeline never returns to
`PollComplete` and never dispatches again. -/
theorem C8_recover_stuck {C : Type} (p0 : PipelineSt C) (w1 : World C) (e : RedisErr)
    (hfail : resolveRefresh w1 (refreshCall p0).1 = .error e) :
    (∀ q : PipelineSt C, (refreshCall q).2.connections = []) ∧
    (enterRecover p0).connections = [] ∧
    ∀ ws : List (World C),
      (ws.foldl (fun p w => recoverPoll w p)
        (recoverPoll w1 (enterRecover p0))).connections = [] ∧
      ∃ fut, (ws.foldl (fun p w => recoverPoll w p)
          (recoverPoll w1 (enterRecover p0))).state = .recover fut ∧
        fut.samples = [] ∧ ∀ w2, resolveRefresh w2 fut = .error noConnErr := by
  refine ⟨fun q => rfl, rfl, ?_⟩
  have hbase : (recoverPoll w1 (enterRecover p0)).connections = [] ∧
      ∃ fut, (recoverPoll w1 (enterRecover p0)).state = .recover fut ∧ fut.samples = [] := by
    rw [recoverPoll_recover w1 (enterRecover p0) (refreshCall p0).1 rfl, hfail]
    simp [refreshCall, enterRecover]
  intro ws
  have hstuck : ∀ (ws : List (World C)) (p : PipelineSt C),
      (p.connections = [] ∧ ∃ fut, p.state = .recover fut ∧ fut.samples = []) →
      ((ws.foldl (fun p w => recoverPoll w p) p).connections = [] ∧
        ∃ fut, (ws.foldl (fun p w => recoverPoll w p) p).state = .recover fut ∧
          fut.samples = []) := by
    intro ws
    induction ws with
    | nil => intro p h; exact h
    | cons w rest ih =>
      intro p h
      exact ih (recoverPoll w p) (recoverPoll_stuck w p h)
  obtain ⟨hc, fut, hs, hsam⟩ := hstuck ws _ hbase
  exact ⟨hc, fut, hs, hsam, fun w2 => resolveRefresh_empty w2 fut hsam⟩

/-- Witness for C8: starting from an empty pipeline, the first refresh
fails and every later state keeps an empty pool. -/
theorem C8_recover_stuck_witness :
    (List.foldl (fun p w => recoverPoll w p)
      (recoverPoll (⟨fun _ => .error noConnErr, fun _ => false, fun _ => none⟩ : World Nat)
        (enterRecover (⟨[], [], .pollComplete⟩ : PipelineSt Nat))) []).connections = [] := by
  have h := C8_recover_stuck (⟨[], [], .pollComplete⟩ : PipelineSt Nat)
    (⟨fun _ => .error noConnErr, fun _ => false, fun _ => none⟩ : World Nat) noConnErr rfl
  exact (h.2.2 []).1

/-- C5 counterexample: a snapshot with a single connection whose
topology query fails makes the refresh fail with that connection's own
`ResponseError`, not with the `IoError` "No connections to refresh
slots from" the claim requires. -/
theorem C5_counterexample :
    refresh_slots_result
        (⟨fun _ => .error ⟨.ResponseError, "Slot refresh error.", none⟩,
          fun _ => false, fun _ => none⟩ : World Nat) [("a", 0)]
      = .error ⟨.ResponseError, "Slot refresh error.", none⟩ ∧
    (⟨.ResponseError, "Slot refresh error.", none⟩ : RedisErr) ≠ noConnErr := by
  exact ⟨rfl, by decide⟩

/-- The retry-policy outcome of one failed in-flight poll of a request:
deliver the error and remove the request; return the error to the
pipeline to trigger a topology refresh; sleep and retry; or record the
tried endpoint and retry on a new connection. -/
inductive ErrAction
  | deliver
  | refresh (retry : Nat)
  | delayRetry (retry : Nat) (millis : Nat)
  | tryNew (retry : Nat) (excludes : List String)
  deriving DecidableEq, Repr

/-- `HashSet::insert` on the exclusion set. -/
def insertAddr (excludes : List String) (addr : String) : List String :=
  if addr ∈ excludes then excludes else addr :: excludes

/-- The largest `u32` value. -/
def U32_MAX : Nat := 4294967295

/-- `u32::saturating_add(1)` on the retry counter. -/
def satSucc (r : Nat) : Nat := min (r + 1) U32_MAX

/-- The error branch of `Request::poll_request`: deliver when the retry
counter has reached a bounded `max_retries`; otherwise bump the counter
(saturating), then dispatch on the error's extension code — `MOVED`
and `ASK` clear the excludes and signal a refresh, `TRYAGAIN` and
`CLUSTERDOWN` clear the excludes and schedule a backoff delay of
`2^clamp(retry, 7, 16) * 10` milliseconds, and any other error records
the tried endpoint, delivering when the exclusion set now covers the
whole pool and retrying on a new connection otherwise. -/
def handle_error (retry : Nat) (max_retries : Option Nat) (excludes : List String)
    (addr : String) (code : Option String) (connections_len : Nat) : ErrAction :=
  if max_retries = some retry then .deliver
  else
    if code = some "MOVED" ∨ code = some "ASK" then .refresh (satSucc retry)
    else if code = some "TRYAGAIN" ∨ code = some "CLUSTERDOWN" then
      .delayRetry (satSucc retry) (2 ^ (min (max (satSucc retry) 7) 16) * 10)
    else
      if connections_len ≤ (insertAddr excludes addr).length then .deliver
      else .tryNew (satSucc retry) (insertAddr excludes addr)

/-- Repeated dispatch of one request when every attempt fails: each
element of `failures` is the endpoint tried and the extension code of
the resulting error.  Returns the number of send attempts consumed
until the request terminates by delivering its error, `none` when the
supplied failures ran out first or a non-generic code left the loop. -/
def attemptsNeeded (max_retries : Option Nat) (connections_len : Nat) :
    Nat → List String → List (String × Option String) → Option Nat
  | _, _, [] => none
  | retry, excludes, (addr, code) :: rest =>
    match handle_error retry max_retries excludes addr code connections_len with
    | .deliver => some 1
    | .tryNew retry2 ex2 =>
      (attemptsNeeded max_retries connections_len retry2 ex2 rest).map (· + 1)
    | _ => none

/-- A code is generic when it is none of the four routing/transient
codes the retry policy recognises. -/
def genericCode (code : Option String) : Prop :=
  code ≠ some "MOVED" ∧ code ≠ some "ASK" ∧
    code ≠ some "TRYAGAIN" ∧ code ≠ some "CLUSTERDOWN"

theorem handle_error_generic (retry : Nat) (mr : Option Nat) (excludes : List String)
    (addr : String) (code : Option String) (clen : Nat)
    (hcode : genericCode code) (hm : mr ≠ some retry) :
    handle_error retry mr excludes addr code clen =
      if clen ≤ (insertAddr excludes addr).length then .deliver
      else .tryNew (satSucc retry) (insertAddr excludes addr) := by
  obtain ⟨h1, h2, h3, h4⟩ := hcode
  unfold handle_error
  rw [if_neg hm, if_neg (by tauto), if_neg (by tauto)]

/-- C7: a failure carrying no recognised extension code whose endpoint,
once added to the exclusion set, makes the set cover the whole pool, is
terminal: the error is delivered and the request removed rather than
retried. -/
theorem C7_exclude_saturation (retry : Nat) (max_retries : Option Nat)
    (excludes : List String) (addr : String) (code : Option String)
    (connections_len : Nat) (hcode : genericCode code)
    (hsat : connections_len ≤ (insertAddr excludes addr).length) :
    handle_error retry max_retries excludes addr code connections_len = .deliver := by
  by_cases hm : max_retries = some retry
  · unfold handle_error
    rw [if_pos hm]
  · rw [handle_error_generic retry max_retries excludes addr code connections_len hcode hm,
      if_pos hsat]

/-- Witness for C7 with a pool of two endpoints, one already excluded. -/
theorem C7_exclude_saturation_witness :
    handle_error 0 (some 5) ["x"] "y" none 2 = .deliver :=
  C7_exclude_saturation 0 (some 5) ["x"] "y" none 2
    (by refine ⟨?_, ?_, ?_, ?_⟩ <;> simp)
    (by simp [insertAddr])

theorem attemptsNeeded_le (n connections_len : Nat) (hn : n < 2 ^ 32) :
    ∀ (fs : List (String × Option String)) (retry : Nat) (excludes : List String),
      (∀ ac ∈ fs, genericCode ac.2) →
      retry ≤ n → fs.length = n + 1 - retry →
      ∃ k, k ≤ fs.length ∧
        attemptsNeeded (some n) connections_len retry excludes fs = some k := by
  intro fs
  induction fs with
  | nil =>
    intro retry excludes _ hr hl
    exfalso
    simp only [List.length_nil] at hl
    omega
  | cons ac rest ih =>
    intro retry excludes hcode hr hl
    obtain ⟨addr, code⟩ := ac
    by_cases hm : retry = n
    · subst hm
      refine ⟨1, by simp, ?_⟩
      show (match handle_error retry (some retry) excludes addr code connections_len with
        | .deliver => some 1
        | .tryNew retry2 ex2 =>
          (attemptsNeeded (some retry) connections_len retry2 ex2 rest).map (· + 1)
        | _ => none) = some 1
      rw [show handle_error retry (some retry) excludes addr code connections_len
        = .deliver by unfold handle_error; rw [if_pos rfl]]
    · have hlt : retry < n := Nat.lt_of_le_of_ne hr hm
      have hsucc : satSucc retry = retry + 1 := by
        unfold satSucc U32_MAX
        omega
      have hgen := handle_error_generic retry (some n) excludes addr code connections_len
        (hcode (addr, code) (List.mem_cons_self _ _))
        (fun he => hm (Option.some.inj he).symm)
      show (∃ k, k ≤ rest.length + 1 ∧
        (match handle_error retry (some n) excludes addr code connections_len with
          | .deliver => some 1
          | .tryNew retry2 ex2 =>
            (attemptsNeeded (some n) connections_len retry2 ex2 rest).map (· + 1)
          | _ => none) = some k)
      rw [hgen]
      by_cases hs : connections_len ≤ (insertAddr excludes addr).length
      · rw [if_pos hs]
        exact ⟨1, by omega, rfl⟩
      · rw [if_neg hs]
        obtain ⟨k, hk, hrun⟩ := ih (satSucc retry) (insertAddr excludes addr)
          (fun ac hac => hcode ac (List.mem_cons_of_mem _ hac))
          (by omega) (by simp only [List.length_cons] at hl; omega)
        refine ⟨k + 1, by omega, ?_⟩
        show (attemptsNeeded (some n) connections_len (satSucc retry)
          (insertAddr excludes addr) rest).map (· + 1) = some (k + 1)
        rw [hrun, Option.map_some']

/-- C6: with `max_retries = some n` (a `u32`), if every dispatch
attempt fails with an error carrying no MOVED/ASK/TRYAGAIN/CLUSTERDOWN
extension code, the request delivers its error and terminates after at
most `n + 1` send attempts; and the attempt that fails while the retry
counter equals `n` is terminal whatever its error code. -/
theorem C6_retry_exhaustion (n connections_len : Nat) (hn : n < 2 ^ 32)
    (fs : List (String × Option String)) (hcode : ∀ ac ∈ fs, genericCode ac.2)
    (hlen : fs.length = n + 1) :
    (∃ k, k ≤ n + 1 ∧ attemptsNeeded (some n) connections_len 0 [] fs = some k) ∧
    ∀ (excludes : List String) (addr : String) (code : Option String),
      handle_error n (some n) excludes addr code connections_len = .deliver := by
  constructor
  · obtain ⟨k, hk, hrun⟩ := attemptsNeeded_le n connections_len hn fs 0 [] hcode
      (Nat.zero_le n) (by omega)
    exact ⟨k, by omega, hrun⟩
  · intro excludes addr code
    unfold handle_error
    rw [if_pos rfl]

/-- Witness for C6: two generic failures exhaust `max_retries = 1` in
exactly two attempts. -/
theorem C6_retry_exhaustion_witness :
    ∃ k, k ≤ 2 ∧ attemptsNeeded (some 1) 5 0 [] [("a", none), ("b", none)] = some k :=
  (C6_retry_exhaustion 1 5 (by norm_num)
    [("a", none), ("b", none)]
    (fun ac hac => by
      rcases List.mem_cons.1 hac with rfl | hac
      · exact ⟨by simp, by simp, by simp, by simp⟩
      · rcases List.mem_singleton.1 hac with rfl
        exact ⟨by simp, by simp, by simp, by simp⟩)
    rfl).1

/-- Random choice of one list element, the model of
`IteratorRandom::choose`: the random state `r` picks an index; `none`
exactly on an empty list. -/
def chooseIdx (l : List String) (r : Nat) : Option String := l.get? (r % l.length)

/-- The sampling stage of `get_random_connection`: keys outside the
exclusion set when the exclusions do not cover the pool, all keys
otherwise. -/
def randomSample {C : Type} (connections : List (String × C))
    (excludes : Option (List String)) (r : Nat) : Option String :=
  match excludes with
  | some ex =>
    if ex.length < connections.length then
      chooseIdx ((connections.map Prod.fst).filter fun k => !(ex.contains k)) r
    else chooseIdx (connections.map Prod.fst) r
  | none => chooseIdx (connections.map Prod.fst) r

/-- `get_random_connection` from the source.  `none` models the panic
of `sample.expect("No targets to choose from")` on an empty sample
space (the `debug_assert!` is a no-op in release builds). -/
def get_random_connection {C : Type} (connections : List (String × C))
    (excludes : Option (List String)) (r : Nat) : Option (String × C) :=
  match randomSample connections excludes r with
  | none => none
  | some addr =>
    match alookup connections addr with
    | some c => some (addr, c)
    | none => none

/-- `slots.range(&slot..).next()`: the first entry of the ordered slot
map with key at least `slot`. -/
def slotLookup (slots : List (Nat × String)) (slot : Nat) : Option String :=
  match slots.find? (fun kv => decide (slot ≤ kv.1)) with
  | some kv => some kv.2
  | none => none

/-- `Pipeline::get_connection` from the source: return the owning
node's pooled connection when present; otherwise a random fallback
entry is drawn eagerly (panicking on an empty pool even before the
connect is attempted), a fresh connection to the owner is tried, and
the random entry is used when it fails; with no owning map entry, a
random pool entry is returned. -/
def pipeline_get_connection {C : Type} (connections : List (String × C))
    (slots : List (Nat × String)) (connectFresh : String → Option C)
    (slot : Nat) (r : Nat) : Option (String × C) :=
  match slotLookup slots slot with
  | some addr =>
    match alookup connections addr with
    | some c => some (addr, c)
    | none =>
      match get_random_connection connections none r with
      | none => none
      | some rc =>
        match connectFresh addr with
        | some c => some (addr, c)
        | none => some rc
  | none => get_random_connection connections none r

/-- The connection-selection logic of `Pipeline::try_request`: a random
connection (outside the exclusions) when the request has exclusions or
no slot, else the slot's connection. -/
def try_request_conn {C : Type} (connections : List (String × C))
    (slots : List (Nat × String)) (connectFresh : String → Option C)
    (slot : Option Nat) (excludes : List String) (r : Nat) : Option (String × C) :=
  if 0 < excludes.length ∨ slot = none then
    get_random_connection connections (some excludes) r
  else
    match slot with
    | some s => pipeline_get_connection connections slots connectFresh s r
    | none => none

theorem chooseIdx_mem (l : List String) (r : Nat) (h : l ≠ []) :
    ∃ a, chooseIdx l r = some a ∧ a ∈ l := by
  have hlen : 0 < l.length := List.length_pos.2 h
  have hmod : r % l.length < l.length := Nat.mod_lt r hlen
  exact ⟨l.get ⟨r % l.length, hmod⟩, List.get?_eq_get hmod, List.get_mem l _ _⟩

theorem chooseIdx_mem_of_eq {l : List String} {r : Nat} {a : String}
    (h : chooseIdx l r = some a) : a ∈ l := List.get?_mem h

theorem alookup_mem {C : Type} (pool : List (String × C)) (a : String)
    (h : a ∈ pool.map Prod.fst) : ∃ c, alookup pool a = some c ∧ (a, c) ∈ pool := by
  induction pool with
  | nil => simp at h
  | cons kv rest ih =>
    obtain ⟨k, v⟩ := kv
    by_cases hk : k = a
    · subst hk
      exact ⟨v, by simp [alookup], by simp⟩
    · have h2 : a ∈ rest.map Prod.fst := by
        simp only [List.map_cons, List.mem_cons] at h
        rcases h with h | h
        · exact absurd h.symm hk
        · exact h
      obtain ⟨c, hc, hm⟩ := ih h2
      exact ⟨c, by simp [alookup, hk, hc], List.mem_cons_of_mem _ hm⟩

theorem filter_not_contains_ne_nil {l ex : List String}
    (hnodup : l.Nodup) (hlen : ex.length < l.length) :
    l.filter (fun k => !(ex.contains k)) ≠ [] := by
  intro hempty
  have hsub : l ⊆ ex := by
    intro a ha
    by_contra hnotin
    have : a ∈ l.filter (fun k => !(ex.contains k)) := by
      rw [List.mem_filter]
      exact ⟨ha, by simpa using hnotin⟩
    rw [hempty] at this
    simp at this
  exact absurd ((List.subperm_of_subset hnodup hsub).length_le) (by omega)

theorem grc_empty {C : Type} (ex2 : Option (List String)) (r2 : Nat) :
    get_random_connection ([] : List (String × C)) ex2 r2 = none := by
  cases ex2 with
  | none => rfl
  | some ex =>
    simp only [get_random_connection, randomSample]
    rw [if_neg (by simp)]
    rfl

/-- C9: `get_random_connection` panics on an empty pool (modelled as
`none`), and this is reached from `try_request` whenever the request
carries no slot; on a non-empty pool with distinct keys it always
returns a pool entry, and when the exclusion set is strictly smaller
than the pool the returned endpoint is outside the exclusion set. -/
theorem C9_random_routing {C : Type} (pool : List (String × C))
    (slots : List (Nat × String)) (connectFresh : String → Option C)
    (excludes : List String) (r : Nat) (hnodup : (pool.map Prod.fst).Nodup) :
    (∀ (ex2 : Option (List String)) (r2 : Nat),
      get_random_connection ([] : List (String × C)) ex2 r2 = none) ∧
    (∀ (ex2 : List String) (r2 : Nat),
      try_request_conn ([] : List (String × C)) slots connectFresh none ex2 r2 = none) ∧
    (pool ≠ [] → ∀ ex2 : Option (List String),
      ∃ a c, get_random_connection pool ex2 r = some (a, c) ∧ (a, c) ∈ pool) ∧
    (excludes.length < pool.length →
      ∀ a c, get_random_connection pool (some excludes) r = some (a, c) → a ∉ excludes) := by
  refine ⟨grc_empty, ?_, ?_, ?_⟩
  · intro ex2 r2
    unfold try_request_conn
    rw [if_pos (Or.inr rfl)]
    exact grc_empty _ _
  · intro hne ex2
    have hkeys : pool.map Prod.fst ≠ [] := by simpa using hne
    have hfromKeys : ∀ a, chooseIdx (pool.map Prod.fst) r = some a →
        ∃ c, alookup pool a = some c ∧ (a, c) ∈ pool :=
      fun a ha => alookup_mem pool a (chooseIdx_mem_of_eq ha)
    cases ex2 with
    | none =>
      obtain ⟨a, ha, ham⟩ := chooseIdx_mem _ r hkeys
      obtain ⟨c, hc, hm⟩ := alookup_mem pool a ham
      exact ⟨a, c, by simp only [get_random_connection, randomSample, ha, hc], hm⟩
    | some ex =>
      by_cases hlt : ex.length < pool.length
      · have hlt2 : ex.length < (pool.map Prod.fst).length := by simpa using hlt
        have hfne := filter_not_contains_ne_nil hnodup hlt2
        obtain ⟨a, ha, ham⟩ := chooseIdx_mem _ r hfne
        have ham2 : a ∈ pool.map Prod.fst := (List.mem_filter.1 ham).1
        obtain ⟨c, hc, hm⟩ := alookup_mem pool a ham2
        refine ⟨a, c, ?_, hm⟩
        simp only [get_random_connection, randomSample, if_pos hlt, ha, hc]
      · obtain ⟨a, ha, ham⟩ := chooseIdx_mem _ r hkeys
        obtain ⟨c, hc, hm⟩ := alookup_mem pool a ham
        refine ⟨a, c, ?_, hm⟩
        simp only [get_random_connection, randomSample, if_neg hlt, ha, hc]
  · intro hlt a c h
    simp only [get_random_connection, randomSample, if_pos hlt] at h
    cases ha : chooseIdx ((pool.map Prod.fst).filter fun k => !(excludes.contains k)) r with
    | none =>
      rw [ha] at h
      exact absurd h (by simp)
    | some addr =>
      simp only [ha] at h
      cases hc : alookup pool addr with
      | none => simp [hc] at h
      | some c2 =>
        simp only [hc] at h
        have : addr = a := by
          have := Option.some.inj h
          exact congrArg Prod.fst this
        subst this
        have ham := chooseIdx_mem_of_eq ha
        have := (List.mem_filter.1 ham).2
        simpa using this

/-- Witness for C9 at a two-entry pool with one excluded endpoint. -/
theorem C9_random_routing_witness :
    ∃ a c, get_random_connection [("x", (0 : Nat)), ("y", 1)] (some ["x"]) 0
      = some (a, c) ∧ (a, c) ∈ [("x", (0 : Nat)), ("y", 1)] :=
  (C9_random_routing [("x", (0 : Nat)), ("y", 1)] [] (fun _ => none) ["x"] 0
    (by simp)).2.2.1 (by simp) (some ["x"])

/-- A node address: TCP host and port, or a UNIX socket path
(`redis::ConnectionAddr`, TLS collapsed into `tcp` as it plays no role
here). -/
inductive ConnectionAddr
  | tcp (host : String) (port : Nat)
  | unix (path : String)
  deriving DecidableEq, Repr

/-- The field of `redis::ConnectionInfo` the core consults. -/
structure ConnectionInfo where
  addr : ConnectionAddr
  deriving DecidableEq, Repr

/-- `struct Client`: the validated initial nodes and the retry cap. -/
structure Client where
  initial_nodes : List ConnectionInfo
  retries : Option Nat
  deriving DecidableEq, Repr

/-- Whether a node address is a UNIX socket. -/
def isUnix : ConnectionInfo → Bool
  | ⟨.unix _⟩ => true
  | ⟨.tcp _ _⟩ => false

/-- `Client::open` (named `open_` because `open` is reserved in Lean):
reject UNIX sockets with `InvalidClientConfig`, otherwise store the
nodes with the default retry cap of 16. -/
def Client.open_ (initial_nodes : List ConnectionInfo) : Except RedisErr Client :=
  if initial_nodes.any isUnix then
    .error ⟨.InvalidClientConfig,
      "This library cannot use unix socket because Redis's cluster command returns only cluster's IP and port.",
      none⟩
  else .ok ⟨initial_nodes, some DEFAULT_RETRIES⟩

/-- `Client::set_retries`: replace the retry cap (`none` retries
forever). -/
def Client.set_retries (c : Client) (retries : Option Nat) : Client :=
  { c with retries := retries }

/-- `impl Clone for Client`:
`Client::open(self.initial_nodes.clone()).unwrap()`; `none` models the
`unwrap` panic. -/
def Client.clone (c : Client) : Option Client :=
  match Client.open_ c.initial_nodes with
  | .ok c2 => some c2
  | .error _ => none

/-- C10: cloning a client always produces a client whose retry cap is
the default `some 16`, whatever value was previously set through
`set_retries`; the initial node list is preserved by the clone but the
`retries` field is not. -/
theorem C10_clone_resets_retries (nodes : List ConnectionInfo) (c : Client)
    (r : Option Nat) (hopen : Client.open_ nodes = .ok c) :
    Client.clone (Client.set_retries c r) = some ⟨c.initial_nodes, some DEFAULT_RETRIES⟩ ∧
    (Client.set_retries c r).retries = r ∧
    (Client.set_retries c r).initial_nodes = c.initial_nodes := by
  unfold Client.open_ at hopen
  by_cases hu : nodes.any isUnix = true
  · rw [if_pos hu] at hopen
    cases hopen
  · rw [if_neg hu] at hopen
    cases hopen
    refine ⟨?_, rfl, rfl⟩
    unfold Client.clone Client.set_retries Client.open_
    simp [hu]

/-- Witness for C10 at a one-node client whose retry cap was cleared. -/
theorem C10_clone_resets_retries_witness :
    Client.clone (Client.set_retries ⟨[⟨.tcp "h" 7000⟩], some 16⟩ none)
      = some ⟨[⟨.tcp "h" 7000⟩], some DEFAULT_RETRIES⟩ :=
  (C10_clone_resets_retries [⟨.tcp "h" 7000⟩] ⟨[⟨.tcp "h" 7000⟩], some 16⟩ none rfl).1

end RedisCluster
